import Mathlib

/-!
Shallow embedding of the `rmilter` crate (milter protocol server library).

Source files embedded:
  * `src/milter_message.rs` — the command codec (`MilterMessage::try_from`),
    the bit-flag sets (`MilterActions`, `MilterProtocol`), response
    serialization (`ResponseMessage`) and the header value decoder (`decode`).
  * `src/milter.rs` — the session driver (`Milter::handle_message`,
    `Milter::handle_stream`, `Milter::send_response`).

Modelling conventions:
  * Machine bytes are `Nat`s (the wire always carries values < 256; theorems
    that need the bound state it explicitly).
  * Rust text fields produced via `String::from_utf8_lossy` are kept as the
    raw byte lists the source feeds into that conversion; no embedded claim
    depends on the lossy UTF-8 transcoding itself.  The header value decoder
    (which operates on already-decoded text) is modelled over `List Char`.
  * A Rust slice-indexing operation that can panic (out-of-bounds range,
    `usize` underflow) is modelled by an explicit `panicked` outcome.
  * Fallible I/O is modelled by event lists (reads) and a boolean oracle
    (writes); `TcpStream::flush` is a no-op in std and is modelled as such.
-/

namespace Rmilter

/-! ## Byte-level helpers -/

/-- `u32::to_be_bytes`: big-endian 4-byte encoding of a `u32` value. -/
def be32enc (n : Nat) : List Nat :=
  [n / 16777216 % 256, n / 65536 % 256, n / 256 % 256, n % 256]

/-- `u32::from_be_bytes` applied to the first four elements of a list
(the source always slices exactly four bytes before converting). -/
def be32take (l : List Nat) : Nat :=
  ((l.getD 0 0 * 256 + l.getD 1 0) * 256 + l.getD 2 0) * 256 + l.getD 3 0

/-- `rest.iter().position(|b| b == &0u8)`: index of the first NUL byte. -/
def posOf0 : List Nat → Option Nat
  | [] => none
  | b :: rest => if b = 0 then some 0 else (posOf0 rest).map (· + 1)

/-- `slice::split(|b| b == &0u8)`: split a byte slice on NUL separators,
separators removed, empty subslices kept (an empty slice yields one empty
subslice, exactly as in Rust). -/
def splitNul : List Nat → List (List Nat)
  | [] => [[]]
  | b :: rest =>
    if b = 0 then [] :: splitNul rest
    else
      match splitNul rest with
      | [] => [[b]]          -- unreachable: splitNul never returns []
      | h :: t => (b :: h) :: t

/-! ## Error and action types (`milter_error.rs`, `accept_reject_action.rs`) -/

/-- `MilterError` (`milter_error.rs`).  The payload-carrying I/O and
conversion variants keep only the variant tag; no claim inspects the inner
`std` error values. -/
inductive MilterError where
  | incompleteMessage
  | ioError
  | missingMessageIdentifier
  | tryFromIntError
  | tryFromSliceError
  | unknowMessageIdentifier (c : Nat)
deriving DecidableEq, Repr

/-- `AcceptRejectAction` (`accept_reject_action.rs`); `Continue` is rendered
`cont` because `continue` is reserved in Lean. -/
inductive AcceptRejectAction where
  | accept
  | cont
  | discard
  | reject
  | tempfail
deriving DecidableEq, Repr

/-- `ProtocolFamily` (`milter_message.rs`). -/
inductive ProtocolFamily where
  | unixSocket
  | inet4
  | inet6
deriving DecidableEq, Repr

/-! ## Bit-flag sets -/

/-- `MilterActions` (`milter_message.rs`): six action-capability flags. -/
structure MilterActions where
  add_headers : Bool
  change_body : Bool
  add_recipients : Bool
  remove_recipients : Bool
  change_headers : Bool
  quarantine : Bool
deriving DecidableEq, Repr

/-- `impl From<&[u8; 4]> for MilterActions`, after the
`u32::from_be_bytes` step: each defined flag is bit `k` of the word
(`v & (1 << k) != 0`); undefined bits are dropped. -/
def MilterActions.ofWord (v : Nat) : MilterActions where
  add_headers := v &&& (1 <<< 0) != 0
  change_body := v &&& (1 <<< 1) != 0
  add_recipients := v &&& (1 <<< 2) != 0
  remove_recipients := v &&& (1 <<< 3) != 0
  change_headers := v &&& (1 <<< 4) != 0
  quarantine := v &&& (1 <<< 5) != 0

/-- `impl From<MilterActions> for Vec<u8>`: OR the defined flags back into a
`u32` and emit its big-endian bytes. -/
def MilterActions.toBytes (m : MilterActions) : List Nat :=
  be32enc ((cond m.add_headers 1 0)
    ||| ((cond m.change_body 1 0) <<< 1)
    ||| ((cond m.add_recipients 1 0) <<< 2)
    ||| ((cond m.remove_recipients 1 0) <<< 3)
    ||| ((cond m.change_headers 1 0) <<< 4)
    ||| ((cond m.quarantine 1 0) <<< 5))

/-- `MilterProtocol` (`milter_message.rs`): seven step-skip flags. -/
structure MilterProtocol where
  no_connect : Bool
  no_helo : Bool
  no_mail : Bool
  no_recipient : Bool
  no_body : Bool
  no_header : Bool
  no_eoh : Bool
deriving DecidableEq, Repr

/-- `impl From<&[u8; 4]> for MilterProtocol`, after `u32::from_be_bytes`. -/
def MilterProtocol.ofWord (v : Nat) : MilterProtocol where
  no_connect := v &&& (1 <<< 0) != 0
  no_helo := v &&& (1 <<< 1) != 0
  no_mail := v &&& (1 <<< 2) != 0
  no_recipient := v &&& (1 <<< 3) != 0
  no_body := v &&& (1 <<< 4) != 0
  no_header := v &&& (1 <<< 5) != 0
  no_eoh := v &&& (1 <<< 6) != 0

/-- `impl From<MilterProtocol> for Vec<u8>`. -/
def MilterProtocol.toBytes (m : MilterProtocol) : List Nat :=
  be32enc ((cond m.no_connect 1 0)
    ||| ((cond m.no_helo 1 0) <<< 1)
    ||| ((cond m.no_mail 1 0) <<< 2)
    ||| ((cond m.no_recipient 1 0) <<< 3)
    ||| ((cond m.no_body 1 0) <<< 4)
    ||| ((cond m.no_header 1 0) <<< 5)
    ||| ((cond m.no_eoh 1 0) <<< 6))

/-- Modelled from the spec: `MilterProtocol::default()` is called at
`milter.rs` line 71 but no `Default` impl is present under `src/`; the spec
fixes the default as "no steps skipped, i.e. everything requested", which is
also what a derived `Default` (all `bool` fields `false`) would produce. -/
def MilterProtocol.noSkips : MilterProtocol where
  no_connect := false
  no_helo := false
  no_mail := false
  no_recipient := false
  no_body := false
  no_header := false
  no_eoh := false

/-! ## Decoded commands (`MilterMessage`) -/

/-- `MilterMessage` (`milter_message.rs`).  Text fields hold the raw bytes
the source passes to `String::from_utf8_lossy`; the `Header` value in the
source additionally runs through the header value decoder, which is modelled
separately over characters (`decodeHdr`).  The `DefineMacros` macro list is
a list of (name, value) byte-string pairs, field `entries`. -/
inductive MilterMessage where
  | abortFilterChecks
  | bodyChunk (value : List Nat)
  | connectionInformation (hostname : List Nat) (family : ProtocolFamily)
      (port : Nat) (address : List Nat)
  | defineMacros (cmdcode : Nat) (entries : List (List Nat × List Nat))
  | endOfBody
  | endOfHeader
  | header (name : List Nat) (value : List Nat)
  | helo (msg : List Nat)
  | mailFrom (sender : List Nat) (args : List (List Nat))
  | optionNegotiation (version : Nat) (actions : MilterActions)
      (protocol : MilterProtocol)
  | quitCommunication
  | recipientInformation (recipient : List Nat) (args : List (List Nat))
deriving DecidableEq, Repr

/-- Outcome of running `MilterMessage::try_from` on a payload: the Rust code
can return `Ok`, return `Err`, or panic on an out-of-bounds slice index. -/
inductive DecodeOutcome where
  | panicked
  | error (e : MilterError)
  | ok (m : MilterMessage)
deriving DecidableEq, Repr

/-- `impl TryFrom<&[u8]> for MilterMessage` (`milter_message.rs` lines
50-168), arm for arm in source order.  Panicking slice operations are made
explicit:
  * `C` arm: `rest[p+2..=p+3]` panics when `p+3 ≥ rest.len()`, and
    `rest[p+4..rest.len()-1]` panics when `p+4 > rest.len()-1`;
  * `H` arm: `rest[..rest.len()-1]` panics when `rest` is empty
    (`usize` underflow / out-of-range end).
The `O` arm's `rest.len() == 12` match guard falls through, on failure, to
the `[identifier, ..]` arm exactly as in the source. -/
def tryFromBytes (value : List Nat) : DecodeOutcome :=
  match value with
  | [0x41] => .ok .abortFilterChecks                        -- [b'A']
  | 0x42 :: rest => .ok (.bodyChunk rest)                   -- [b'B', rest @ ..]
  | 0x43 :: rest =>                                         -- [b'C', rest @ ..]
    match posOf0 rest with
    | none => .error .incompleteMessage
    | some hostnameEnd =>
      let hostname := rest.take hostnameEnd
      match rest.get? (hostnameEnd + 1) with
      | none => .error .incompleteMessage
      | some fb =>
        if fb = 0x4C then
          connTail rest hostnameEnd hostname .unixSocket
        else if fb = 0x34 then
          connTail rest hostnameEnd hostname .inet4
        else if fb = 0x36 then
          connTail rest hostnameEnd hostname .inet6
        else .error .incompleteMessage
  | 0x44 :: cmdcode :: rest =>                              -- [b'D', cmdcode, rest @ ..]
    if rest.isEmpty then .ok (.defineMacros cmdcode [])
    else
      let fields := splitNul rest.dropLast
      let names := fields.enum.filter (fun p => p.1 % 2 = 0)
      let values := fields.enum.filter (fun p => p.1 % 2 ≠ 0)
      if names.length ≠ values.length then .error .incompleteMessage
      else
        -- `for (i, name) in names { if let Some((_, value)) = values.get(i) ... }`
        -- note: `i` is the enumeration index, `values.get(i)` is positional.
        .ok (.defineMacros cmdcode
          (names.filterMap (fun p => (values.get? p.1).map (fun q => (p.2, q.2)))))
  | [0x45] => .ok .endOfBody                                -- [b'E']
  | 0x48 :: rest =>                                         -- [b'H', rest @ ..]
    if rest.isEmpty then .panicked                          -- rest[..rest.len()-1]
    else .ok (.helo rest.dropLast)
  | 0x4C :: rest =>                                         -- [b'L', rest @ ..]
    match splitNul rest with
    | name :: val :: _ => .ok (.header name val)
    | _ => .error .incompleteMessage
  | 0x4D :: rest =>                                         -- [b'M', rest @ ..]
    match splitNul rest with
    | sender :: args => .ok (.mailFrom sender args)
    | [] => .error .incompleteMessage                       -- unreachable
  | [0x4E] => .ok .endOfHeader                              -- [b'N']
  | 0x4F :: rest =>                                         -- [b'O', rest @ ..] if rest.len() == 12
    if rest.length = 12 then
      .ok (.optionNegotiation (be32take rest)
        (.ofWord (be32take (rest.drop 4)))
        (.ofWord (be32take (rest.drop 8))))
    else .error (.unknowMessageIdentifier 0x4F)             -- guard fails: [identifier, ..] arm
  | [0x51] => .ok .quitCommunication                        -- [b'Q']
  | 0x52 :: rest =>                                         -- [b'R', rest @ ..]
    match splitNul rest with
    | recipient :: args => .ok (.recipientInformation recipient args)
    | [] => .error .incompleteMessage                       -- unreachable
  | identifier :: _ => .error (.unknowMessageIdentifier identifier)
  | [] => .error .missingMessageIdentifier
where
  /-- Port and address decoding of the `C` arm, shared across the three
  accepted family bytes.  `port` is `u16::from_be_bytes(rest[p+2..=p+3])`
  and `address` is `rest[p+4..rest.len()-1]` minus nothing further (the
  slice itself strips the trailing NUL); both slices can panic. -/
  connTail (rest : List Nat) (hostnameEnd : Nat) (hostname : List Nat)
      (family : ProtocolFamily) : DecodeOutcome :=
    if hostnameEnd + 4 ≤ rest.length then
      let port := rest.getD (hostnameEnd + 2) 0 * 256 + rest.getD (hostnameEnd + 3) 0
      if hostnameEnd + 4 ≤ rest.length - 1 then
        .ok (.connectionInformation hostname family port
          ((rest.drop (hostnameEnd + 4)).take (rest.length - 1 - (hostnameEnd + 4))))
      else .panicked                                        -- address slice start > end
    else .panicked                                          -- port slice out of bounds

/-! ## Response serialization (`ResponseMessage`) -/

/-- `impl From<AcceptRejectAction> for ResponseMessage`: length-1 frame with
the single-byte tag. -/
def actionContent (a : AcceptRejectAction) : List Nat :=
  match a with
  | .accept => be32enc 1 ++ [0x61]
  | .cont => be32enc 1 ++ [0x63]
  | .discard => be32enc 1 ++ [0x64]
  | .reject => be32enc 1 ++ [0x72]
  | .tempfail => be32enc 1 ++ [0x74]

/-- `ResponseMessage::option_negotiation` (`milter_message.rs` 357-377):
length 13, tag `O`, version, action bytes, protocol bytes. -/
def optionNegotiationContent (version : Nat) (actions : MilterActions)
    (protocol : MilterProtocol) : List Nat :=
  be32enc 13 ++ [0x4F] ++ be32enc version ++ actions.toBytes ++ protocol.toBytes

/-! ## Header value decoder (`decode`, `milter_message.rs` 379-424)

The decoder operates on already-decoded text; it is modelled over
`List Char`.  The external crates it calls (`charset`, `base64`,
`quoted_printable`) are not part of this repository; they enter the model as
an environment of uninterpreted functions (`HdrEnv`), so every theorem below
holds for every possible behaviour of those crates unless it instantiates
the environment explicitly. -/

/-- `str::split("=?")`: split on the two-character separator, leftmost,
non-overlapping, separators removed, empty pieces kept. -/
def splitEW : List Char → List (List Char)
  | [] => [[]]
  | [c] => [[c]]
  | a :: b :: rest =>
    if a = '=' ∧ b = '?' then [] :: splitEW rest
    else
      match splitEW (b :: rest) with
      | [] => [[a]]          -- unreachable: splitEW never returns []
      | h :: t => (a :: h) :: t

/-- `str::find("?=")`: index of the leftmost occurrence. -/
def findQE : List Char → Option Nat
  | [] => none
  | [_] => none
  | a :: b :: rest =>
    if a = '?' ∧ b = '=' then some 0
    else (findQE (b :: rest)).map (· + 1)

/-- `str::split('?')`: split on a single-character separator. -/
def splitQ : List Char → List (List Char)
  | [] => [[]]
  | c :: rest =>
    if c = '?' then [] :: splitQ rest
    else
      match splitQ rest with
      | [] => [[c]]          -- unreachable: splitQ never returns []
      | h :: t => (c :: h) :: t

/-- `encoded_value.replace("_", " ")` (single-character pattern). -/
def underscoreToSpace (c : Char) : Char :=
  if c = '_' then ' ' else c

/-- Environment abstracting the external crates used by `decode`:
  * `charsetFor` — `charset::Charset::for_label_no_replacement`, the charset
    handle abstracted to a `Nat`;
  * `b64decode` — `base64::decode` on the payload text;
  * `qpDecode` — `quoted_printable::decode(_, ParseMode::Robust)` applied to
    the payload after the `_` → space substitution;
  * `charsetDecode` — `Charset::decode_without_bom_handling`;
  * `strBytes` — `str::as_bytes` (UTF-8 bytes of a text). -/
structure HdrEnv where
  charsetFor : List Char → Option Nat
  b64decode : List Char → Option (List Nat)
  qpDecode : List Char → Option (List Nat)
  charsetDecode : Nat → List Nat → List Char
  strBytes : List Char → List Nat

/-- The body of `decode`'s `for split in s.split("=?")` loop for one split:
everything pushed onto `res` while handling that split, in order. -/
def processSplit (env : HdrEnv) (split : List Char) : List Char :=
  match findQE split with
  | some encodedEnd =>
    let encoded := split.take encodedEnd
    let parts := splitQ encoded
    (if parts.length = 3 then
      match env.charsetFor (parts.getD 0 []) with
      | some cs =>
        let transferEncoding := parts.getD 1 []
        let encodedValue := parts.getD 2 []
        let decodedBytes :=
          if transferEncoding = ['b'] ∨ transferEncoding = ['B'] then
            (env.b64decode encodedValue).getD (env.strBytes encoded)
          else if transferEncoding = ['q'] ∨ transferEncoding = ['Q'] then
            (env.qpDecode (encodedValue.map underscoreToSpace)).getD
              (env.strBytes encoded)
          else env.strBytes encodedValue
        env.charsetDecode cs decodedBytes
      | none => split                                       -- res.push_str(split)
    else [])                                                -- parts.len() != 3: nothing pushed
    ++ (if encodedEnd + 2 < split.length then split.drop (encodedEnd + 2) else [])
  | none => split                                           -- res.push_str(split)

/-- `decode` (`milter_message.rs` 379-424): concatenation of the per-split
outputs over `s.split("=?")`. -/
def decodeHdr (env : HdrEnv) (s : List Char) : List Char :=
  ((splitEW s).map (processSplit env)).flatten

/-- A concrete environment instance for closed counterexamples: no charset
label resolves, both transfer decoders fail, and texts/bytes are copied by
code point.  (Real `charset` returns `None` for the label `bad`.) -/
def hdrEnvNone : HdrEnv where
  charsetFor := fun _ => none
  b64decode := fun _ => none
  qpDecode := fun _ => none
  charsetDecode := fun _ bs => bs.map Char.ofNat
  strBytes := fun cs => cs.map Char.toNat

/-- `hasSub2 a b s` holds when the two-character string `ab` occurs as a
contiguous substring of `s`. -/
def hasSub2 (a b : Char) : List Char → Bool
  | [] => false
  | [_] => false
  | x :: y :: rest => (x == a && y == b) || hasSub2 a b (y :: rest)

/-! ## Session driver (`milter.rs`)

The driver is modelled over:
  * a `MessageHandler` record of pure callback functions (the trait's
    response-bearing methods; `abort_filter_checks` and `define_macros`
    return nothing and are tracked only in the call trace);
  * a list of read events (`ReadEv`) standing for successive
    `stream.read(..)` results;
  * a boolean write oracle: each `write_all` consumes one entry, `false`
    meaning the write fails with an I/O error (`TcpStream::flush` is a no-op
    in std and consumes nothing).  An exhausted oracle means writes succeed.
-/

/-- The `MessageHandler` trait's response-bearing methods as pure functions
(handler state is irrelevant to the embedded claims). -/
structure MessageHandler where
  bodyChunk : List Nat → AcceptRejectAction
  connection : List Nat → ProtocolFamily → Nat → List Nat → AcceptRejectAction
  endOfBody : AcceptRejectAction
  endOfHeader : AcceptRejectAction
  header : List Nat → List Nat → AcceptRejectAction
  helo : List Nat → AcceptRejectAction
  mailFrom : List Nat → List (List Nat) → AcceptRejectAction
  recipient : List Nat → List (List Nat) → AcceptRejectAction

/-- The all-default handler: every method returns `Continue`, matching the
trait's default implementations. -/
def defaultHandler : MessageHandler where
  bodyChunk := fun _ => .cont
  connection := fun _ _ _ _ => .cont
  endOfBody := .cont
  endOfHeader := .cont
  header := fun _ _ => .cont
  helo := fun _ => .cont
  mailFrom := fun _ _ => .cont
  recipient := fun _ _ => .cont

/-- Observable effects of one `handle_message` call: handler methods invoked
(recorded as the decoded command they were invoked for) and byte strings
successfully written to the socket. -/
structure MsgEffects where
  calls : List MilterMessage
  writes : List (List Nat)
deriving DecidableEq, Repr

/-- Result of `Milter::handle_message`: a decode panic, `Err` (only from a
failed socket write), or `Ok(keep_open)`. -/
inductive MsgRes where
  | panicked
  | err (e : MilterError) (eff : MsgEffects) (oracle : List Bool)
  | ok (keepOpen : Bool) (eff : MsgEffects) (oracle : List Bool)
deriving DecidableEq, Repr

/-- Consume one entry of the write oracle (`true` = the write succeeds). -/
def takeOracle : List Bool → Bool × List Bool
  | [] => (true, [])
  | b :: r => (b, r)

/-- `Milter::send_response` for a decoded command `msg` whose handler
returned action `a`: one `write_all` (plus a no-op flush). -/
def respond (msg : MilterMessage) (a : AcceptRejectAction)
    (oracle : List Bool) : MsgRes :=
  let w := takeOracle oracle
  if w.1 then .ok true ⟨[msg], [actionContent a]⟩ w.2
  else .err .ioError ⟨[msg], []⟩ w.2

/-- `Milter::handle_message` (`milter.rs` 18-95): decode the payload,
dispatch to the handler / option negotiation / the malformed-frame fallback,
write the response where one is due. -/
def handleMessage (h : MessageHandler) (protocolCfg : Option MilterProtocol)
    (payload : List Nat) (oracle : List Bool) : MsgRes :=
  match tryFromBytes payload with
  | .panicked => .panicked
  | .error _ =>
    -- Err(_e) arm: write `00 00 00 01 63` (Continue), keep the loop open
    let w := takeOracle oracle
    if w.1 then .ok true ⟨[], [be32enc 1 ++ [0x63]]⟩ w.2
    else .err .ioError ⟨[], []⟩ w.2
  | .ok msg =>
    match msg with
    | .abortFilterChecks => .ok true ⟨[msg], []⟩ oracle
    | .bodyChunk v => respond msg (h.bodyChunk v) oracle
    | .connectionInformation hn fam port addr =>
      respond msg (h.connection hn fam port addr) oracle
    | .defineMacros _ _ => .ok true ⟨[msg], []⟩ oracle
    | .endOfBody => respond msg h.endOfBody oracle
    | .endOfHeader => respond msg h.endOfHeader oracle
    | .header n v => respond msg (h.header n v) oracle
    | .helo m => respond msg (h.helo m) oracle
    | .mailFrom s args => respond msg (h.mailFrom s args) oracle
    | .optionNegotiation version actions _ =>
      -- handled inside the driver; the handler is never invoked
      let content := optionNegotiationContent version actions
        (protocolCfg.getD .noSkips)
      let w := takeOracle oracle
      if w.1 then .ok true ⟨[], [content]⟩ w.2
      else .err .ioError ⟨[], []⟩ w.2
    | .quitCommunication => .ok false ⟨[], []⟩ oracle
    | .recipientInformation r args => respond msg (h.recipient r args) oracle

/-- One `stream.read(&mut buffer)` result: `Ok(len)` with the bytes read,
`Ok(0)` (end of stream), or `Err(e)`. -/
inductive ReadEv where
  | bytes (b : List Nat)
  | closed
  | rerr
deriving DecidableEq, Repr

/-- Result of the inner `while collected_bytes.len() >= u32_size + msg_len`
loop of `handle_stream`. -/
inductive InnerRes where
  | panicked
  | err (e : MilterError)
  | broke (buf : List Nat) (oracle : List Bool)    -- keep_open set false: break
  | drained (buf : List Nat) (oracle : List Bool)  -- loop condition failed
deriving Repr

/-- The inner drain loop of `Milter::handle_stream` (`milter.rs` 119-134):
pop the 4-byte prefix and the `msg_len` payload bytes, dispatch them, then
re-read `msg_len` from the front of the buffer — but, exactly as in the
source, only when at least four bytes remain (otherwise the stale value is
kept; the loop condition then fails anyway). -/
def innerDrain (h : MessageHandler) (protocolCfg : Option MilterProtocol)
    (msgLen : Nat) (buf : List Nat) (oracle : List Bool) : InnerRes :=
  if _hlen : 4 + msgLen ≤ buf.length then
    let rest := buf.drop 4
    let msg := rest.take msgLen
    let buf' := rest.drop msgLen
    match handleMessage h protocolCfg msg oracle with
    | .panicked => .panicked
    | .err e _ _ => .err e
    | .ok keepOpen _ oracle' =>
      if keepOpen then
        innerDrain h protocolCfg
          (if 4 ≤ buf'.length then be32take buf' else msgLen) buf' oracle'
      else .broke buf' oracle'
  else .drained buf oracle
termination_by buf.length
decreasing_by simp only [List.length_drop]; omega

/-- Result of `Milter::handle_stream`: panic, `Err(..)` propagated from
`handle_message` via `?`, or `Ok(())`. -/
inductive StreamRes where
  | panicked
  | err (e : MilterError)
  | retOk
deriving DecidableEq, Repr

/-- `Milter::handle_stream` (`milter.rs` 97-148) over a list of read events.
`Ok(0)` breaks the loop (connection closed); a read `Err(e)` is logged to
stderr and ALSO merely breaks the loop, so the function still returns
`Ok(())`; read bytes are appended to `collected_bytes` and the inner drain
loop runs when at least four bytes are buffered.  The `u32` → `usize`
conversion of the length prefix always succeeds on a 64-bit target and is
modelled as exact.  An exhausted event list ends the model run (the real
code would block on `read`); it returns `Ok(())` never having been reached
by any claim's scenario. -/
def handleStream (h : MessageHandler) (protocolCfg : Option MilterProtocol)
    (events : List ReadEv) (buf : List Nat) (oracle : List Bool) : StreamRes :=
  match events with
  | [] => .retOk
  | ev :: evs =>
    match ev with
    | .closed => .retOk                        -- Ok(0) => break
    | .rerr => .retOk                          -- Err(e) => eprintln!(..); break
    | .bytes b =>
      let buf := buf ++ b
      if 4 ≤ buf.length then
        match innerDrain h protocolCfg (be32take buf) buf oracle with
        | .panicked => .panicked
        | .err e => .err e
        | .broke _ _ => .retOk                 -- keep_open false: outer break, Ok(())
        | .drained buf' oracle' => handleStream h protocolCfg evs buf' oracle'
      else handleStream h protocolCfg evs buf oracle

/-! ## Pure frame assembler

For the framing claim, the same loop as `handle_stream`'s `Ok(len)` arm is
modelled with the dispatch replaced by collecting the frame payloads (i.e.
every `handle_message` call returns `Ok(true)` and performs no I/O), so the
assembly behaviour can be studied in isolation. -/

/-- The inner drain loop, yielding the popped frame payloads. -/
def assembleDrain (msgLen : Nat) (buf : List Nat) : List Nat × List (List Nat) :=
  if _hlen : 4 + msgLen ≤ buf.length then
    let rest := buf.drop 4
    let frame := rest.take msgLen
    let buf' := rest.drop msgLen
    let next := assembleDrain (if 4 ≤ buf'.length then be32take buf' else msgLen) buf'
    (next.1, frame :: next.2)
  else (buf, [])
termination_by buf.length
decreasing_by simp only [List.length_drop]; omega

/-- One `Ok(len)` read: append the chunk, then drain. -/
def assembleFeed (st : List Nat × List (List Nat)) (chunk : List Nat) :
    List Nat × List (List Nat) :=
  let buf := st.1 ++ chunk
  if 4 ≤ buf.length then
    let d := assembleDrain (be32take buf) buf
    (d.1, st.2 ++ d.2)
  else (buf, st.2)

/-- Feed a whole sequence of read chunks through the assembly loop, starting
from an empty buffer; returns the final buffer and all yielded frame
payloads in order. -/
def assemble (chunks : List (List Nat)) : List Nat × List (List Nat) :=
  chunks.foldl assembleFeed ([], [])

/-- Wire encoding of one frame: 4-byte big-endian length prefix, payload. -/
def encodeFrame (p : List Nat) : List Nat :=
  be32enc p.length ++ p

/-- Wire encoding of a sequence of frames. -/
def encodeFrames (ps : List (List Nat)) : List Nat :=
  (ps.map encodeFrame).flatten

/-- A buffer that does not yet contain one complete frame: either the length
prefix itself is incomplete, or the buffer is shorter than prefix+payload. -/
def incompleteBuf (r : List Nat) : Prop :=
  r.length < 4 ∨ r.length < 4 + be32take r

/-! ## Helper lemmas -/

/-- Decoding the `O` arm when the remainder has exactly twelve bytes. -/
lemma tryFrom_optneg_of_len (rest : List Nat) (hr : rest.length = 12) :
    tryFromBytes (0x4F :: rest) =
      .ok (.optionNegotiation (be32take rest)
        (.ofWord (be32take (rest.drop 4)))
        (.ofWord (be32take (rest.drop 8)))) := by
  simp [tryFromBytes, hr]

/-- Decoding the `O` arm when the remainder does not have twelve bytes: the
match guard fails and the payload falls to the unknown-identifier arm. -/
lemma tryFrom_optneg_of_len_ne (rest : List Nat) (hr : rest.length ≠ 12) :
    tryFromBytes (0x4F :: rest) = .error (.unknowMessageIdentifier 0x4F) := by
  simp [tryFromBytes, hr]

/-! ## Claim theorems -/

/-- C3 (code bug): the claim says that decoding any frame payload either
succeeds or returns a decode-error value, with slice-bounds failures
surfacing as conversion errors, never panics.  The code panics instead: a
`Helo` payload with empty remainder hits `rest[..rest.len() - 1]` with
`rest.len() = 0`, and a truncated `ConnectionInformation` payload hits the
out-of-bounds port slice `rest[p+2..=p+3]`.  (An unknown identifier, by
contrast, does produce an error value, as the last conjunct shows.) -/
theorem c3_truncated_payload_panics :
    tryFromBytes [0x48] = .panicked ∧
    tryFromBytes [0x43, 0x00, 0x34] = .panicked ∧
    tryFromBytes [0x5A] = .error (.unknowMessageIdentifier 0x5A) := by
  decide

/-- C4 (confirmed): on any payload whose decoding fails with any
decode-error value, the driver invokes no handler method (`calls = []`),
writes exactly the 5-byte Continue frame `00 00 00 01 63`, and keeps the
connection open (`keep_open = true`), ready for the next frame. -/
theorem c4_decode_failure_writes_continue (h : MessageHandler)
    (cfg : Option MilterProtocol) (payload : List Nat) (e : MilterError)
    (oracle : List Bool) (hd : tryFromBytes payload = .error e) :
    handleMessage h cfg payload (true :: oracle) =
      .ok true ⟨[], [[0, 0, 0, 1, 0x63]]⟩ oracle := by
  unfold handleMessage
  rw [hd]
  rfl

/-- Witness for C4 at the unknown-identifier payload `[0x58]`. -/
theorem c4_witness :
    handleMessage defaultHandler none [0x58] [true] =
      .ok true ⟨[], [[0, 0, 0, 1, 0x63]]⟩ [] :=
  c4_decode_failure_writes_continue defaultHandler none [0x58]
    (.unknowMessageIdentifier 0x58) [] (by decide)

/-- C8 (confirmed): an `O` payload decodes successfully exactly when its
remainder is twelve bytes, read as three consecutive 4-byte big-endian
fields; any other remainder length is a decode error (the match guard falls
through to the unknown-identifier arm).  The last conjunct is the claim's
concrete example: version 2, action word `0x3F` (all six capability flags),
protocol word `0x7F` (all seven step-skip flags). -/
theorem c8_optneg_decode (rest : List Nat) :
    (rest.length = 12 →
      tryFromBytes (0x4F :: rest) =
        .ok (.optionNegotiation (be32take rest)
          (.ofWord (be32take (rest.drop 4)))
          (.ofWord (be32take (rest.drop 8))))) ∧
    (rest.length ≠ 12 →
      tryFromBytes (0x4F :: rest) = .error (.unknowMessageIdentifier 0x4F)) ∧
    tryFromBytes [0x4F, 0, 0, 0, 2, 0, 0, 0, 0x3F, 0, 0, 0, 0x7F] =
      .ok (.optionNegotiation 2
        ⟨true, true, true, true, true, true⟩
        ⟨true, true, true, true, true, true, true⟩) :=
  ⟨tryFrom_optneg_of_len rest, tryFrom_optneg_of_len_ne rest, by decide⟩

/-- Witness for C8: the two implications applied at a 12-byte remainder and
at the empty remainder. -/
theorem c8_witness :
    tryFromBytes (0x4F :: [0, 0, 0, 2, 0, 0, 0, 0x3F, 0, 0, 0, 0x7F]) =
      .ok (.optionNegotiation
        (be32take [0, 0, 0, 2, 0, 0, 0, 0x3F, 0, 0, 0, 0x7F])
        (.ofWord (be32take ([0, 0, 0, 2, 0, 0, 0, 0x3F, 0, 0, 0, 0x7F].drop 4)))
        (.ofWord (be32take ([0, 0, 0, 2, 0, 0, 0, 0x3F, 0, 0, 0, 0x7F].drop 8)))) ∧
    tryFromBytes (0x4F :: ([] : List Nat)) =
      .error (.unknowMessageIdentifier 0x4F) :=
  ⟨(c8_optneg_decode [0, 0, 0, 2, 0, 0, 0, 0x3F, 0, 0, 0, 0x7F]).1 (by decide),
   (c8_optneg_decode []).2.1 (by decide)⟩

/-- C9 (code bug): the odd/even field-count rule holds (third conjunct:
an odd split is `IncompleteMessage`), but for an even count of four or more
fields the produced macro list is NOT the alternating (name, value) pairs
the claim states.  The loop looks values up by the enumeration index of the
name (`values.get(i)` with `i ∈ {0, 2, 4, ..}`) instead of by pair position,
so `a\0b\0c\0d\0` yields only `[(a, b)]` (the claim demands
`[(a, b), (c, d)]`), and `a\0b\0c\0d\0e\0f\0` yields `[(a, b), (c, f)]`
(the claim demands `[(a, b), (c, d), (e, f)]`). -/
theorem c9_macro_pairing_bug :
    tryFromBytes [0x44, 99, 0x61, 0, 0x62, 0, 0x63, 0, 0x64, 0] =
      .ok (.defineMacros 99 [([0x61], [0x62])]) ∧
    tryFromBytes
        [0x44, 99, 0x61, 0, 0x62, 0, 0x63, 0, 0x64, 0, 0x65, 0, 0x66, 0] =
      .ok (.defineMacros 99 [([0x61], [0x62]), ([0x63], [0x66])]) ∧
    tryFromBytes [0x44, 99, 0x61, 0] = .error .incompleteMessage ∧
    tryFromBytes [0x44, 99] = .ok (.defineMacros 99 []) := by
  decide

/-- C10 (confirmed): a `ConnectionInformation` payload with a NUL-terminated
hostname whose following family byte is not `L`, `4` or `6` fails with
`IncompleteMessage` (never success, never unknown-identifier). -/
theorem c10_bad_family_incomplete (rest : List Nat) (p fb : Nat)
    (hp : posOf0 rest = some p) (hb : rest.get? (p + 1) = some fb)
    (h1 : fb ≠ 0x4C) (h2 : fb ≠ 0x34) (h3 : fb ≠ 0x36) :
    tryFromBytes (0x43 :: rest) = .error .incompleteMessage := by
  have hb' : rest[p + 1]? = some fb := by
    rw [← List.get?_eq_getElem?]; exact hb
  simp [tryFromBytes, hp, hb', h1, h2, h3]

/-- Witness for C10 at hostname `""`, family byte `X`. -/
theorem c10_witness :
    tryFromBytes [0x43, 0, 0x58] = .error .incompleteMessage :=
  c10_bad_family_incomplete [0, 0x58] 0 0x58 (by decide) (by decide)
    (by decide) (by decide) (by decide)

/-- C1 counterexample: two `OptionNegotiation` payloads processed under the
SAME local filter configuration (`none`, i.e. the default), identical except
for the MTA's proposed action-capability word (1 vs 2), produce different
replies.  Were the reply's action bits "exactly as configured locally by the
filter" they would be a function of the local configuration alone and the
two replies would coincide; in fact the driver echoes the MTA's proposed
action bits back. -/
theorem c1_counterexample :
    handleMessage defaultHandler none
        [0x4F, 0, 0, 0, 2, 0, 0, 0, 1, 0, 0, 0, 0] [true] ≠
      handleMessage defaultHandler none
        [0x4F, 0, 0, 0, 2, 0, 0, 0, 2, 0, 0, 0, 0] [true] := by
  decide

/-- C1 amended: for every decoded `OptionNegotiation` command the driver
writes (invoking no handler method) the 17-byte frame
`00 00 00 0D 4F` ‖ version echoed (4 bytes BE) ‖ the MTA's OWN proposed
action-capability bits truncated to the six defined flags (4 bytes BE) ‖
the step-skip bits exactly as configured locally by the filter, the
no-steps-skipped default when no protocol was configured (4 bytes BE). -/
theorem c1_optneg_reply (h : MessageHandler) (cfg : Option MilterProtocol)
    (rest : List Nat) (oracle : List Bool) (hr : rest.length = 12) :
    handleMessage h cfg (0x4F :: rest) (true :: oracle) =
      .ok true
        ⟨[], [[0, 0, 0, 0x0D, 0x4F] ++ be32enc (be32take rest) ++
          (MilterActions.ofWord (be32take (rest.drop 4))).toBytes ++
          (cfg.getD .noSkips).toBytes]⟩ oracle ∧
    ([0, 0, 0, 0x0D, 0x4F] ++ be32enc (be32take rest) ++
        (MilterActions.ofWord (be32take (rest.drop 4))).toBytes ++
        (cfg.getD .noSkips).toBytes).length = 17 := by
  constructor
  · unfold handleMessage
    rw [tryFrom_optneg_of_len rest hr]
    show MsgRes.ok true ⟨[], [optionNegotiationContent _ _ _]⟩ oracle = _
    rw [optionNegotiationContent]
    rfl
  · simp [be32enc, MilterActions.toBytes, MilterProtocol.toBytes]

/-- Witness for C1 amended at the claim's example payload with no local
protocol configured. -/
theorem c1_witness :
    handleMessage defaultHandler none
        (0x4F :: [0, 0, 0, 2, 0, 0, 0, 0x3F, 0, 0, 0, 0x7F]) [true] =
      .ok true
        ⟨[], [[0, 0, 0, 0x0D, 0x4F] ++
          be32enc (be32take [0, 0, 0, 2, 0, 0, 0, 0x3F, 0, 0, 0, 0x7F]) ++
          (MilterActions.ofWord
            (be32take ([0, 0, 0, 2, 0, 0, 0, 0x3F, 0, 0, 0, 0x7F].drop 4))).toBytes ++
          ((none : Option MilterProtocol).getD .noSkips).toBytes]⟩ [] :=
  (c1_optneg_reply defaultHandler none
    [0, 0, 0, 2, 0, 0, 0, 0x3F, 0, 0, 0, 0x7F] [] (by decide)).1

/-- C2 counterexample: a connection whose very first read fails with an I/O
error.  The claim says the driver surfaces the transport error to its
caller; in fact `handle_stream` only logs it to stderr, breaks the loop and
returns `Ok(())`. -/
theorem c2_counterexample :
    handleStream defaultHandler none [.rerr] [] [] = .retOk := by
  decide

/-- C2 amended: a transport error still terminates the connection's
processing loop in both directions, but only a WRITE failure is returned as
an error to the caller; a READ failure is logged and swallowed — the driver
returns success.  First conjunct: whatever is buffered and whatever events
would follow, a read error ends the loop with `Ok(())`.  Second conjunct:
a write failure while responding (here to a valid 2-byte Helo frame) is
propagated as an I/O error for every handler and any later events. -/
theorem c2_transport_error_paths :
    (∀ (h : MessageHandler) (cfg : Option MilterProtocol) (evs : List ReadEv)
        (buf : List Nat) (oracle : List Bool),
      handleStream h cfg (.rerr :: evs) buf oracle = .retOk) ∧
    (∀ (h : MessageHandler) (cfg : Option MilterProtocol) (more : List ReadEv)
        (oracle : List Bool),
      handleStream h cfg (.bytes [0, 0, 0, 2, 0x48, 0] :: more) []
        (false :: oracle) = .err .ioError) := by
  constructor
  · intro h cfg evs buf oracle
    rfl
  · intro h cfg more oracle
    have hmsg : handleMessage h cfg [0x48, 0] (false :: oracle) =
        .err .ioError ⟨[.helo []], []⟩ oracle := by
      unfold handleMessage
      rw [show tryFromBytes [0x48, 0] = .ok (.helo []) from by decide]
      rfl
    have hdrain : innerDrain h cfg 2 [0, 0, 0, 2, 0x48, 0] (false :: oracle) =
        .err .ioError := by
      rw [innerDrain]
      norm_num
      rw [hmsg]
    show handleStream h cfg (.bytes [0, 0, 0, 2, 0x48, 0] :: more) []
        (false :: oracle) = .err .ioError
    unfold handleStream
    norm_num [be32take]
    rw [hdrain]

/-! ## Lemmas about the header decoder's scanning primitives -/

/-- A string with no occurrence of `=?` is returned whole by `split("=?")`. -/
lemma splitEW_eq_self : ∀ s : List Char,
    hasSub2 '=' '?' s = false → splitEW s = [s]
  | [], _ => rfl
  | [_], _ => rfl
  | a :: b :: rest, h => by
    simp only [hasSub2, Bool.or_eq_false_iff, Bool.and_eq_false_iff] at h
    have hab : ¬(a = '=' ∧ b = '?') := by
      rcases h.1 with hc | hc <;> simp [beq_eq_false_iff_ne] at hc <;> tauto
    rw [splitEW, if_neg hab, splitEW_eq_self (b :: rest) h.2]

/-- A string with no occurrence of `?=` has no `find("?=")` hit. -/
lemma findQE_eq_none : ∀ s : List Char,
    hasSub2 '?' '=' s = false → findQE s = none
  | [], _ => rfl
  | [_], _ => rfl
  | a :: b :: rest, h => by
    simp only [hasSub2, Bool.or_eq_false_iff, Bool.and_eq_false_iff] at h
    have hab : ¬(a = '?' ∧ b = '=') := by
      rcases h.1 with hc | hc <;> simp [beq_eq_false_iff_ne] at hc <;> tauto
    rw [findQE, if_neg hab, findQE_eq_none (b :: rest) h.2]
    rfl

/-- C7 counterexample: the input `a=?b` contains `=?` without a matching
`?=`; the claim says such text is returned unchanged, but the decoder
consumes the `=?` separator during `split("=?")` and never re-emits it, so
the output is `ab` — in particular not the input. -/
theorem c7_counterexample :
    decodeHdr hdrEnvNone ['a', '=', '?', 'b'] = ['a', 'b'] ∧
      decodeHdr hdrEnvNone ['a', '=', '?', 'b'] ≠ ['a', '=', '?', 'b'] := by
  decide

/-- C7 amended: an input containing NEITHER `=?` nor `?=` as a substring is
returned unchanged by the header value decoder, for every behaviour of the
external charset/base64/quoted-printable crates.  (The original claim's
further inclusion of texts with an unpaired marker does not survive: the
counterexample shows a text with an unpaired `=?` that is altered.  Whether
a text with unpaired markers is altered depends on its shape and on the
external crates, so the amendment restricts the claim to marker-free
texts.) -/
theorem c7_no_markers_unchanged (env : HdrEnv) (s : List Char)
    (h1 : hasSub2 '=' '?' s = false) (h2 : hasSub2 '?' '=' s = false) :
    decodeHdr env s = s := by
  rw [decodeHdr, splitEW_eq_self s h1]
  simp [processSplit, findQE_eq_none s h2]

/-- Witness for C7 amended at the plain text `hello`. -/
theorem c7_witness : decodeHdr hdrEnvNone ['h', 'e', 'l', 'l', 'o'] =
    ['h', 'e', 'l', 'l', 'o'] :=
  c7_no_markers_unchanged hdrEnvNone ['h', 'e', 'l', 'l', 'o']
    (by decide) (by decide)

/-- Prepending characters distinct from `a` does not affect `hasSub2 a b`. -/
lemma hasSub2_append_left (a b : Char) : ∀ xs ys : List Char,
    xs.all (· != a) = true → hasSub2 a b (xs ++ ys) = hasSub2 a b ys
  | [], _, _ => rfl
  | [x], ys, h => by
    simp only [List.all_cons, List.all_nil, Bool.and_true, bne_iff_ne] at h
    cases ys with
    | nil => rfl
    | cons y ys' =>
      show hasSub2 a b (x :: y :: ys') = hasSub2 a b (y :: ys')
      rw [hasSub2]
      simp [h]
  | x :: z :: zs, ys, h => by
    simp only [List.all_cons, Bool.and_eq_true, bne_iff_ne] at h
    show hasSub2 a b (x :: z :: (zs ++ ys)) = hasSub2 a b ys
    rw [hasSub2]
    have hx : (x == a) = false := by simp [h.1]
    rw [hx]
    simp only [Bool.false_and, Bool.false_or]
    exact hasSub2_append_left a b (z :: zs) ys
      (by simp [List.all_cons, bne_iff_ne, h.2.1, h.2.2])

/-- A string without the first character of the pattern has no occurrence. -/
lemma hasSub2_eq_false_of_fst (a b : Char) (s : List Char)
    (h : s.all (· != a) = true) : hasSub2 a b s = false := by
  have := hasSub2_append_left a b s [] h
  simpa using this

/-- A string without the second character of the pattern has no occurrence. -/
lemma hasSub2_eq_false_of_snd (a b : Char) : ∀ s : List Char,
    s.all (· != b) = true → hasSub2 a b s = false
  | [], _ => rfl
  | [_], _ => rfl
  | x :: y :: r, h => by
    simp only [List.all_cons, Bool.and_eq_true, bne_iff_ne] at h
    rw [hasSub2]
    have hy : (y == b) = false := by simp [h.2.1]
    rw [hy]
    simp only [Bool.and_false, Bool.false_or]
    exact hasSub2_eq_false_of_snd a b (y :: r)
      (by simp [List.all_cons, bne_iff_ne, h.2.1, h.2.2])

/-- Position of the first `?=` after a clean first chunk. -/
lemma findQE_append_at : ∀ xs ys : List Char, hasSub2 '?' '=' xs = false →
    findQE (xs ++ '?' :: '=' :: ys) = some xs.length
  | [], ys, _ => by
    show findQE ('?' :: '=' :: ys) = some 0
    rw [findQE]
    simp
  | [x], ys, _ => by
    show findQE (x :: '?' :: '=' :: ys) = some 1
    rw [findQE]
    have hx : ¬(x = '?' ∧ '?' = '=') := by simp
    rw [if_neg hx, show findQE ('?' :: '=' :: ys) = some 0 from by rw [findQE]; simp]
    rfl
  | x :: z :: zs, ys, h => by
    show findQE (x :: z :: (zs ++ '?' :: '=' :: ys)) = some (zs.length + 1 + 1)
    rw [findQE]
    have hxz : ¬(x = '?' ∧ z = '=') := by
      rintro ⟨h1, h2⟩
      rw [h1, h2] at h
      simp [hasSub2] at h
    have htail : hasSub2 '?' '=' (z :: zs) = false := by
      rw [hasSub2] at h
      exact (Bool.or_eq_false_iff.mp h).2
    rw [if_neg hxz, ← List.cons_append, findQE_append_at (z :: zs) ys htail]
    rfl

/-- `split('?')` pops a clean first field at the first separator. -/
lemma splitQ_append : ∀ xs ys : List Char, xs.all (· != '?') = true →
    splitQ (xs ++ '?' :: ys) = xs :: splitQ ys
  | [], ys, _ => by
    show splitQ ('?' :: ys) = [] :: splitQ ys
    rw [splitQ]
    simp
  | x :: xs, ys, h => by
    simp only [List.all_cons, Bool.and_eq_true, bne_iff_ne] at h
    show splitQ (x :: (xs ++ '?' :: ys)) = (x :: xs) :: splitQ ys
    rw [splitQ, if_neg h.1, splitQ_append xs ys h.2]

/-- `split('?')` on a separator-free string returns it whole. -/
lemma splitQ_eq_self : ∀ xs : List Char,
    xs.all (· != '?') = true → splitQ xs = [xs]
  | [], _ => rfl
  | x :: xs, h => by
    simp only [List.all_cons, Bool.and_eq_true, bne_iff_ne] at h
    rw [splitQ, if_neg h.1, splitQ_eq_self xs h.2]

/-- Split a cleanliness hypothesis into its two component `all`s. -/
lemma all_ne_of_clean (s : List Char)
    (h : s.all (fun c => c != '?' && c != '=') = true) :
    s.all (· != '?') = true ∧ s.all (· != '=') = true := by
  simp only [List.all_eq_true, Bool.and_eq_true, bne_iff_ne] at h ⊢
  exact ⟨fun c hc => (h c hc).1, fun c hc => (h c hc).2⟩

/-- C6 counterexample: the input `=?bad?B?xx?=t` contains one encoded-word
span whose charset label `bad` is unresolvable (the environment resolves no
label, as `charset` does for `bad`).  The claim says the decoder returns the
full input unchanged; in fact it returns `bad?B?xx?=tt` — the leading `=?`
is lost to the `split("=?")` pass and the text after `?=` is emitted twice,
once inside the fallback `push_str(split)` and once by the tail append. -/
theorem c6_counterexample :
    decodeHdr hdrEnvNone
        ['=', '?', 'b', 'a', 'd', '?', 'B', '?', 'x', 'x', '?', '=', 't'] ≠
      ['=', '?', 'b', 'a', 'd', '?', 'B', '?', 'x', 'x', '?', '=', 't'] := by
  decide

/-- C6 amended: when an encoded-word span `=?L?B?P?=` has an unresolvable
charset label, the decoder does NOT return the original input; it drops the
span's leading `=?` marker and duplicates the text `T` that follows the
span's `?=` (for any charset/base64/quoted-printable behaviour, any label
`L`, payload `P` and tail `T` free of `?` and `=`). -/
theorem c6_unresolvable_charset (env : HdrEnv) (L P T : List Char)
    (hcs : env.charsetFor L = none)
    (hL : L.all (fun c => c != '?' && c != '=') = true)
    (hP : P.all (fun c => c != '?' && c != '=') = true)
    (hT : T.all (fun c => c != '?' && c != '=') = true) :
    decodeHdr env
        ('=' :: '?' :: (L ++ '?' :: 'B' :: '?' :: (P ++ '?' :: '=' :: T))) =
      L ++ '?' :: 'B' :: '?' :: (P ++ '?' :: '=' :: (T ++ T)) := by
  obtain ⟨hLq, hLe⟩ := all_ne_of_clean L hL
  obtain ⟨hPq, hPe⟩ := all_ne_of_clean P hP
  obtain ⟨hTq, hTe⟩ := all_ne_of_clean T hT
  set rest := L ++ '?' :: 'B' :: '?' :: (P ++ '?' :: '=' :: T) with hrest
  have hshape : rest = (L ++ '?' :: 'B' :: '?' :: P) ++ ('?' :: '=' :: T) := by
    rw [hrest]
    simp [List.append_assoc]
  have hrest_no_ew : hasSub2 '=' '?' rest = false := by
    rw [hrest, hasSub2_append_left '=' '?' L _ hLe,
      show ('?' :: 'B' :: '?' :: (P ++ '?' :: '=' :: T)) =
        ['?', 'B', '?'] ++ (P ++ '?' :: '=' :: T) from rfl,
      hasSub2_append_left '=' '?' ['?', 'B', '?'] _ (by decide),
      hasSub2_append_left '=' '?' P _ hPe, hasSub2,
      show ('?' == '=') = false from rfl]
    simp only [Bool.false_and, Bool.false_or]
    cases T with
    | nil => rfl
    | cons t T' =>
      rw [hasSub2]
      simp only [List.all_cons, Bool.and_eq_true, bne_iff_ne] at hTq
      have ht : (t == '?') = false := by simp [hTq.1]
      rw [ht]
      simp only [Bool.and_false, Bool.false_or]
      exact hasSub2_eq_false_of_fst '=' '?' (t :: T') hTe
  have hxsE : ((L ++ '?' :: 'B' :: '?' :: P).all (· != '=')) = true := by
    have h1 : ('?' != '=') = true := by decide
    have h2 : ('B' != '=') = true := by decide
    simp [List.all_append, List.all_cons, hLe, hPe, h1, h2]
  have hfind : findQE rest = some (L ++ '?' :: 'B' :: '?' :: P).length := by
    rw [hshape]
    exact findQE_append_at _ T (hasSub2_eq_false_of_snd '?' '=' _ hxsE)
  have htake : rest.take (L ++ '?' :: 'B' :: '?' :: P).length =
      L ++ '?' :: 'B' :: '?' :: P := by
    rw [hshape]
    exact List.take_left _ _
  have hsplitQ : splitQ (L ++ '?' :: 'B' :: '?' :: P) = [L, ['B'], P] := by
    rw [show L ++ '?' :: 'B' :: '?' :: P = L ++ '?' :: (['B'] ++ '?' :: P) from rfl,
      splitQ_append L _ hLq, splitQ_append ['B'] P (by decide),
      splitQ_eq_self P hPq]
  have hlen : rest.length = (L ++ '?' :: 'B' :: '?' :: P).length + 2 + T.length := by
    rw [hshape]
    simp [List.length_append]
    omega
  have hdropT : rest.drop ((L ++ '?' :: 'B' :: '?' :: P).length + 2) = T := by
    rw [hshape]
    have h2 : (L ++ '?' :: 'B' :: '?' :: P).length + 2 =
        ((L ++ '?' :: 'B' :: '?' :: P) ++ ['?', '=']).length := by
      simp [List.length_append]
      omega
    rw [h2, show (L ++ '?' :: 'B' :: '?' :: P) ++ ('?' :: '=' :: T) =
      ((L ++ '?' :: 'B' :: '?' :: P) ++ ['?', '=']) ++ T from by
        simp [List.append_assoc]]
    exact List.drop_left _ _
  have hgetD0 : [L, ['B'], P].getD 0 [] = L := rfl
  have hproc : processSplit env rest = rest ++ T := by
    cases T with
    | nil =>
      have hnlt : ¬ ((L ++ '?' :: 'B' :: '?' :: P).length + 2 < rest.length) := by
        rw [hlen]
        simp
      simp only [processSplit, hfind, htake, hsplitQ, hgetD0, hcs,
        List.length_cons, List.length_nil, if_pos rfl, if_neg hnlt]
      simp
    | cons t T' =>
      have hlt : (L ++ '?' :: 'B' :: '?' :: P).length + 2 < rest.length := by
        rw [hlen]
        simp
      simp only [processSplit, hfind, htake, hsplitQ, hgetD0, hcs,
        List.length_cons, List.length_nil, if_pos rfl, if_pos hlt, hdropT]
      simp
  rw [decodeHdr,
    show splitEW ('=' :: '?' :: rest) = [] :: splitEW rest from by
      rw [splitEW]
      simp,
    splitEW_eq_self rest hrest_no_ew]
  simp only [List.map_cons, List.map_nil, List.flatten,
    show processSplit env [] = [] from rfl]
  rw [hproc, hrest]
  simp [List.append_assoc]

/-- Witness for C6 amended at label `bad`, payload `xx`, tail `t`, in the
nothing-resolves environment. -/
theorem c6_witness :
    decodeHdr hdrEnvNone
        ('=' :: '?' :: (['b', 'a', 'd'] ++ '?' :: 'B' :: '?' ::
          (['x', 'x'] ++ '?' :: '=' :: ['t']))) =
      ['b', 'a', 'd'] ++ '?' :: 'B' :: '?' ::
        (['x', 'x'] ++ '?' :: '=' :: (['t'] ++ ['t'])) :=
  c6_unresolvable_charset hdrEnvNone ['b', 'a', 'd'] ['x', 'x'] ['t']
    rfl (by decide) (by decide) (by decide)

/-! ## Lemmas about the frame assembler -/

/-- Big-endian round trip: decoding the 4-byte encoding of `n < 2³²` (with
anything appended) recovers `n`. -/
lemma be32take_enc (n : Nat) (r : List Nat) (h : n < 4294967296) :
    be32take (be32enc n ++ r) = n := by
  simp only [be32enc, List.cons_append, List.nil_append, be32take,
    List.getD_cons_zero, List.getD_cons_succ]
  omega

/-- `be32take` reads only the first four bytes. -/
lemma be32take_append (p t : List Nat) (h : 4 ≤ p.length) :
    be32take (p ++ t) = be32take p := by
  unfold be32take
  rw [List.getD_append _ _ _ _ (by omega), List.getD_append _ _ _ _ (by omega),
    List.getD_append _ _ _ _ (by omega), List.getD_append _ _ _ _ (by omega)]

/-- `encodeFrames` distributes over append. -/
lemma encodeFrames_append (a b : List (List Nat)) :
    encodeFrames (a ++ b) = encodeFrames a ++ encodeFrames b := by
  simp [encodeFrames]

/-- The encoding of a non-empty frame list (of `u32`-sized frames) is never
an incomplete buffer. -/
lemma not_incompleteBuf_encodeFrames (fs : List (List Nat))
    (hall : ∀ f ∈ fs, f.length < 4294967296) :
    incompleteBuf (encodeFrames fs) → fs = [] := by
  intro h
  cases fs with
  | nil => rfl
  | cons f fs =>
    exfalso
    have hf : f.length < 4294967296 := hall f (List.mem_cons_self f fs)
    have hshape : encodeFrames (f :: fs) =
        be32enc f.length ++ (f ++ encodeFrames fs) := by
      simp [encodeFrames, encodeFrame, List.append_assoc]
    rw [incompleteBuf, hshape] at h
    have hlen : (be32enc f.length ++ (f ++ encodeFrames fs)).length =
        4 + f.length + (encodeFrames fs).length := by
      simp [be32enc]
      omega
    rcases h with h | h
    · omega
    · rw [be32take_enc f.length _ hf] at h
      omega

/-- On a buffer consisting of whole frame encodings followed by an
incomplete remainder, the drain loop pops exactly those frames and leaves
the remainder, provided the incoming `msg_len` is correct whenever at least
four bytes are buffered (the loop's own re-read discipline). -/
lemma assembleDrain_encode : ∀ (fs : List (List Nat)) (r : List Nat) (m : Nat),
    (∀ f ∈ fs, f.length < 4294967296) →
    (4 ≤ (encodeFrames fs ++ r).length → m = be32take (encodeFrames fs ++ r)) →
    incompleteBuf r →
    assembleDrain m (encodeFrames fs ++ r) = (r, fs)
  | [], r, m, _, hm, hr => by
    have hm' : 4 ≤ r.length → m = be32take r := by
      intro h4
      have h := hm (by simpa [encodeFrames] using h4)
      simpa [encodeFrames] using h
    have hnot : ¬ (4 + m ≤ r.length) := by
      rcases hr with h | h
      · omega
      · by_cases h4 : 4 ≤ r.length
        · rw [← hm' h4] at h
          omega
        · omega
    show assembleDrain m (encodeFrames [] ++ r) = (r, [])
    rw [show encodeFrames [] ++ r = r from by simp [encodeFrames]]
    rw [assembleDrain, dif_neg hnot]
  | f :: fs, r, m, hall, hm, hr => by
    have hf : f.length < 4294967296 := hall f (List.mem_cons_self f fs)
    have hbuf : encodeFrames (f :: fs) ++ r =
        be32enc f.length ++ (f ++ (encodeFrames fs ++ r)) := by
      simp [encodeFrames, encodeFrame, List.append_assoc]
    have hlen4 : (be32enc f.length).length = 4 := by simp [be32enc]
    have hm' : m = f.length := by
      have h4 : 4 ≤ (encodeFrames (f :: fs) ++ r).length := by
        rw [hbuf]
        simp [be32enc]
      rw [hm h4, hbuf, be32take_enc f.length _ hf]
    have hlenbuf : (encodeFrames (f :: fs) ++ r).length =
        4 + f.length + (encodeFrames fs ++ r).length := by
      rw [hbuf]
      simp [be32enc]
      omega
    have hcond : 4 + m ≤ (encodeFrames (f :: fs) ++ r).length := by
      rw [hm', hlenbuf]
      omega
    have hdrop4 : (encodeFrames (f :: fs) ++ r).drop 4 =
        f ++ (encodeFrames fs ++ r) := by
      rw [hbuf]
      exact List.drop_left' hlen4
    have htakef : (f ++ (encodeFrames fs ++ r)).take m = f := by
      rw [hm']
      exact List.take_left _ _
    have hdropf : (f ++ (encodeFrames fs ++ r)).drop m = encodeFrames fs ++ r := by
      rw [hm']
      exact List.drop_left _ _
    rw [assembleDrain, dif_pos hcond]
    simp only [hdrop4, htakef, hdropf]
    rw [assembleDrain_encode fs r _
      (fun g hg => hall g (List.mem_cons_of_mem f hg))
      (fun h4 => by rw [if_pos h4]) hr]

/-- Every left factor of a frame-stream encoding decomposes as some whole
frame encodings followed by an incomplete remainder of the next frames. -/
lemma decompose_stream : ∀ (fs : List (List Nat)) (p t : List Nat),
    p ++ t = encodeFrames fs →
    (∀ f ∈ fs, f.length < 4294967296) →
    ∃ fs1 fs2 r, fs = fs1 ++ fs2 ∧ p = encodeFrames fs1 ++ r ∧
      (∃ t2, r ++ t2 = encodeFrames fs2) ∧ incompleteBuf r
  | [], p, t, heq, _ => by
    have hp : p = [] :=
      (List.append_eq_nil.mp (by simpa [encodeFrames] using heq)).1
    exact ⟨[], [], [], rfl, by simp [encodeFrames, hp],
      ⟨[], by simp [encodeFrames]⟩, Or.inl (by simp)⟩
  | f :: fs, p, t, heq, hall => by
    have hf : f.length < 4294967296 := hall f (List.mem_cons_self f fs)
    have henc : encodeFrames (f :: fs) =
        (be32enc f.length ++ f) ++ encodeFrames fs := by
      simp [encodeFrames, encodeFrame]
    by_cases hp : 4 + f.length ≤ p.length
    · have hlen1 : (be32enc f.length ++ f).length = 4 + f.length := by
        simp [be32enc]
        omega
      have hfirst : be32enc f.length ++ f = p.take (4 + f.length) := by
        have h1 : p.take (4 + f.length) = (p ++ t).take (4 + f.length) :=
          (List.take_append_of_le_length hp).symm
        rw [h1, heq, henc, List.take_left' hlen1]
      have hsplit : p = (be32enc f.length ++ f) ++ p.drop (4 + f.length) := by
        rw [hfirst, List.take_append_drop]
      have hrest : p.drop (4 + f.length) ++ t = encodeFrames fs := by
        have hcat : (be32enc f.length ++ f) ++ (p.drop (4 + f.length) ++ t) =
            (be32enc f.length ++ f) ++ encodeFrames fs := by
          rw [← List.append_assoc, ← hsplit, heq, henc]
        exact List.append_cancel_left hcat
      obtain ⟨fs1, fs2, r, h1, h2, h3, h4⟩ :=
        decompose_stream fs (p.drop (4 + f.length)) t hrest
          (fun g hg => hall g (List.mem_cons_of_mem f hg))
      refine ⟨f :: fs1, fs2, r, by rw [h1]; rfl, ?_, h3, h4⟩
      rw [hsplit, h2]
      simp [encodeFrames, encodeFrame, List.append_assoc]
    · refine ⟨[], f :: fs, p, rfl, by simp [encodeFrames], ⟨t, heq⟩, ?_⟩
      by_cases h4 : p.length < 4
      · exact Or.inl h4
      · right
        have hbt : be32take p = f.length := by
          have h1 : be32take p = be32take (p ++ t) :=
            (be32take_append p t (by omega)).symm
          rw [h1, heq, henc, List.append_assoc, be32take_enc f.length _ hf]
        rw [hbt]
        omega

/-- Chunk-feeding invariant: starting from an incomplete buffer whose
completion by the remaining chunks is exactly the encoding of the remaining
frames, the fold drains everything and appends exactly those frames. -/
lemma assemble_fold : ∀ (chunks : List (List Nat)) (buf : List Nat)
    (acc fsRem : List (List Nat)),
    (∀ f ∈ fsRem, f.length < 4294967296) →
    incompleteBuf buf →
    buf ++ chunks.flatten = encodeFrames fsRem →
    List.foldl assembleFeed (buf, acc) chunks = ([], acc ++ fsRem)
  | [], buf, acc, fsRem, hall, hinc, hstream => by
    have hbuf : buf = encodeFrames fsRem := by simpa using hstream
    have hnil : fsRem = [] :=
      not_incompleteBuf_encodeFrames fsRem hall (hbuf ▸ hinc)
    subst hnil
    simp only [encodeFrames, List.map_nil, List.flatten_nil] at hbuf
    simp [hbuf]
  | c :: cs, buf, acc, fsRem, hall, hinc, hstream => by
    have hstream' : (buf ++ c) ++ cs.flatten = encodeFrames fsRem := by
      simpa [List.append_assoc] using hstream
    obtain ⟨fs1, fs2, r, hfs, hbc, ⟨t2, ht2⟩, hrinc⟩ :=
      decompose_stream fsRem (buf ++ c) cs.flatten hstream' hall
    rw [List.foldl_cons]
    by_cases hb : 4 ≤ (buf ++ c).length
    · have hfeed : assembleFeed (buf, acc) c = (r, acc ++ fs1) := by
        simp only [assembleFeed]
        rw [if_pos hb, hbc]
        rw [assembleDrain_encode fs1 r _
          (fun g hg => hall g (by rw [hfs]; exact List.mem_append_left fs2 hg))
          (fun _ => rfl) hrinc]
      rw [hfeed]
      have hstream2 : r ++ cs.flatten = encodeFrames fs2 := by
        have hcat : encodeFrames fs1 ++ (r ++ cs.flatten) =
            encodeFrames fs1 ++ encodeFrames fs2 := by
          rw [← List.append_assoc, ← hbc, hstream', hfs, encodeFrames_append]
        exact List.append_cancel_left hcat
      rw [assemble_fold cs r (acc ++ fs1) fs2
        (fun g hg => hall g (by rw [hfs]; exact List.mem_append_right fs1 hg))
        hrinc hstream2]
      rw [List.append_assoc, ← hfs]
    · have hfeed : assembleFeed (buf, acc) c = (buf ++ c, acc) := by
        simp only [assembleFeed]
        rw [if_neg hb]
      rw [hfeed]
      exact assemble_fold cs (buf ++ c) acc fsRem hall (Or.inl (by omega)) hstream'

/-- C5 (confirmed): for every finite sequence of frames (payload lengths
representable as `u32`), feeding the concatenation of their wire encodings
through the assembly loop in ANY chunking yields exactly the original
payload sequence in order, with an empty residual buffer — in particular no
partial frame is ever handed to dispatch. -/
theorem c5_frame_assembly (frames chunks : List (List Nat))
    (hlen : ∀ f ∈ frames, f.length < 4294967296)
    (hchunks : chunks.flatten = encodeFrames frames) :
    assemble chunks = ([], frames) := by
  have h := assemble_fold chunks [] [] frames hlen (Or.inl (by simp))
    (by simpa using hchunks)
  simpa [assemble] using h

/-- Witness for C5: a Helo frame and a Quit frame delivered in eleven
1-byte reads. -/
theorem c5_witness :
    assemble [[0], [0], [0], [2], [0x48], [0], [0], [0], [0], [1], [0x51]] =
      ([], [[0x48, 0], [0x51]]) :=
  c5_frame_assembly [[0x48, 0], [0x51]]
    [[0], [0], [0], [2], [0x48], [0], [0], [0], [0], [1], [0x51]]
    (by decide) (by decide)

end Rmilter
